import Mathlib

/-!
Shallow embedding of the macro aggregation and partner-name-normalization
engine of the earnings-analyzer repository (src/lib/macro.ts, second
revision, together with the static company registry of src/lib/companies.ts).

JavaScript strings are modelled as Lean `String` restricted to the ASCII
fragment actually used by the engine: `toLowerCase` maps each character
through `Char.toLower`, `trim` strips ASCII whitespace, `includes` is the
substring test, and the default array sort on strings is lexicographic.
JavaScript numbers are modelled as `Option ℚ` (`JsNum`) where `none` stands
for `NaN`; fields that may be `null`/absent are wrapped in a further
`Option`.  `Map`/`Set` are modelled as insertion-ordered association lists
with dedup insertion, matching the iteration-order semantics of JS `Map`
and `Set`.  `Array.prototype.sort` (stable since ES2019) with a numeric
comparator is modelled by a stable insertion sort on the comparator key.
-/

/-- A JavaScript number: `none` models `NaN`. -/
abbrev JsNum := Option ℚ

/-- ASCII whitespace, the fragment of the JS `\s`/`trim` class used here. -/
def isWs (c : Char) : Bool :=
  c == ' ' || c == '\t' || c == '\n' || c == '\r'

/-- Model of `String.prototype.toLowerCase` on ASCII data. -/
def jsToLower (s : String) : String :=
  String.mk (s.toList.map Char.toLower)

/-- Drop leading and trailing whitespace from a character list. -/
def trimChars (l : List Char) : List Char :=
  ((l.dropWhile isWs).reverse.dropWhile isWs).reverse

/-- Model of `String.prototype.trim` on ASCII data. -/
def jsTrim (s : String) : String :=
  String.mk (trimChars s.toList)

/-- The composite `name.toLowerCase().trim()` used by the normalizer. -/
def jsLowerTrim (s : String) : String :=
  jsTrim (jsToLower s)

/-- Does the second list lead (begin) with the first list? -/
def leadsWith : List Char → List Char → Bool
  | [], _ => true
  | _ :: _, [] => false
  | a :: as, b :: bs => a == b && leadsWith as bs

/-- Is the needle a contiguous sub-sequence of the haystack? -/
def hasSub (needle : List Char) : List Char → Bool
  | [] => needle.isEmpty
  | c :: rest => leadsWith needle (c :: rest) || hasSub needle rest

/-- Model of `s.includes(sub)`. -/
def jsIncludes (s sub : String) : Bool :=
  hasSub sub.toList s.toList

/-- Model of `s.startsWith(pre)`. -/
def jsStartsWith (s pre : String) : Bool :=
  leadsWith pre.toList s.toList

/-- Canonical partner name mappings for normalization (`PARTNER_NAME_MAP`
from the source), as an association list of lowercase alias to canonical
form. -/
def PARTNER_NAME_MAP : List (String × String) := [
  ("microsoft corporation", "Microsoft"),
  ("msft", "Microsoft"),
  ("microsoft corp", "Microsoft"),
  ("google", "Google"),
  ("alphabet", "Google"),
  ("googl", "Google"),
  ("google search licensing", "Google"),
  ("amazon", "Amazon"),
  ("amazon.com", "Amazon"),
  ("amzn", "Amazon"),
  ("aws", "AWS"),
  ("amazon web services", "AWS"),
  ("meta", "Meta"),
  ("meta platforms", "Meta"),
  ("facebook", "Meta"),
  ("apple", "Apple"),
  ("apple inc", "Apple"),
  ("aapl", "Apple"),
  ("nvidia", "NVIDIA"),
  ("nvidia corporation", "NVIDIA"),
  ("nvda", "NVIDIA"),
  ("rivian", "Rivian"),
  ("rivian electric vehicle", "Rivian"),
  ("rivian electric vehicle collaboration", "Rivian"),
  ("openai", "OpenAI"),
  ("open ai", "OpenAI"),
  ("openai global llc", "OpenAI"),
  ("anthropic", "Anthropic"),
  ("salesforce", "Salesforce"),
  ("salesforce.com", "Salesforce"),
  ("oracle", "Oracle"),
  ("oracle corporation", "Oracle"),
  ("ibm", "IBM"),
  ("snowflake", "Snowflake"),
  ("databricks", "Databricks"),
  ("tsmc", "TSMC"),
  ("taiwan semiconductor", "TSMC"),
  ("taiwan semiconductor manufacturing", "TSMC"),
  ("samsung", "Samsung"),
  ("samsung electronics", "Samsung"),
  ("samsung bioepis", "Samsung"),
  ("samsung bioepis (biosimilars)", "Samsung"),
  ("umc", "UMC"),
  ("umc collaboration on 12nm foundry process", "UMC"),
  ("intel", "Intel"),
  ("intel corporation", "Intel"),
  ("amd", "AMD"),
  ("advanced micro devices", "AMD"),
  ("qualcomm", "Qualcomm"),
  ("broadcom", "Broadcom"),
  ("arm", "ARM"),
  ("arm holdings", "ARM"),
  ("pfizer", "Pfizer"),
  ("pfizer inc", "Pfizer"),
  ("merck", "Merck"),
  ("merck & co", "Merck"),
  ("johnson & johnson", "J&J"),
  ("j&j", "J&J"),
  ("roche", "Roche"),
  ("roche holding", "Roche"),
  ("novartis", "Novartis"),
  ("sanofi", "Sanofi"),
  ("astrazeneca", "AstraZeneca"),
  ("gsk", "GSK"),
  ("glaxosmithkline", "GSK"),
  ("eli lilly", "Eli Lilly"),
  ("lilly", "Eli Lilly"),
  ("abbvie", "AbbVie"),
  ("regeneron", "Regeneron"),
  ("moderna", "Moderna"),
  ("biontech", "BioNTech"),
  ("vertex", "Vertex"),
  ("vertex pharmaceuticals", "Vertex"),
  ("gilead", "Gilead"),
  ("gilead sciences", "Gilead"),
  ("biogen", "Biogen"),
  ("amgen", "Amgen"),
  ("crispr therapeutics", "CRISPR Therapeutics"),
  ("crispr therapeutics ag", "CRISPR Therapeutics"),
  ("crispr", "CRISPR Therapeutics"),
  ("eisai", "Eisai"),
  ("takeda", "Takeda"),
  ("takeda pharmaceutical", "Takeda"),
  ("takeda pharmaceutical company", "Takeda"),
  ("sony", "Sony"),
  ("sony playstation", "Sony"),
  ("sony corporation", "Sony"),
  ("tencent", "Tencent"),
  ("alibaba", "Alibaba"),
  ("jd.com", "JD.com"),
  ("jd cloud", "JD.com"),
  ("activision", "Activision Blizzard"),
  ("activision blizzard", "Activision Blizzard")]

/-- Entities to filter out (`EXCLUDED_PARTNERS` from the source), in
insertion order. -/
def EXCLUDED_PARTNERS : List String := [
  "fda", "sec", "ftc", "doj", "irs", "fcc", "epa",
  "darpa", "barda", "nih", "cdc", "cms",
  "european commission", "eu commission", "european union",
  "us government", "u.s. government", "federal government",
  "ministry of health", "ministry of health labor and welfare",
  "uk health security agency", "taiwan food and drug administration",
  "national institutes", "national institutes of health",
  "national institutes of allergy and infectious diseases",
  "cloud service providers", "cloud providers",
  "ai model collaborations", "continued ai model collaborations",
  "enhanced cloud service partnerships", "strategic partners",
  "global telecommunications service provider partners",
  "expanded content licensing agreements",
  "manufacturing investments", "domestic production",
  "ai infrastructure buildout",
  "north american charging standard", "nacs", "nacs adoption",
  "institute for life changing medicines",
  "mckesson", "mckesson corp", "mckesson corporation",
  "cardinal health", "cencora", "amerisourcebergen",
  "besse medical", "fff enterprises",
  "brookfield", "apollo", "blackstone", "blackstone life sciences",
  "scip transaction", "convertible notes",
  "bitstamp", "bitstamp (pending acquisition)",
  "zt systems", "zt systems acquisition",
  "inflection ai", "inflection ai inc"]

/-- The body of the partial-match exclusion loop: some excluded term is
contained in the input or contains the input. -/
def hitsExclusion (lower : String) : Bool :=
  EXCLUDED_PARTNERS.any (fun e => jsIncludes lower e || jsIncludes e lower)

/-- Legal-suffix alternatives of the first cleanup regex
`/\s+(inc\.?|corp\.?|corporation|llc|ltd\.?|plc|ag|nv|sa|limited)$/i`,
with the optional-dot variants expanded in the order the regex engine
tries them. -/
def legalSuffixes : List String :=
  ["inc.", "inc", "corp.", "corp", "corporation", "llc", "ltd.", "ltd",
   "plc", "ag", "nv", "sa", "limited"]

/-- Deal-descriptor alternatives of the second cleanup regex
`/\s+(collaboration|partnership|deal|agreement|acquisition|transaction)$/i`. -/
def dealSuffixes : List String :=
  ["collaboration", "partnership", "deal", "agreement", "acquisition",
   "transaction"]

/-- Try to strip one end-anchored alternative `\s+word$` (case-insensitive),
removing the alternative together with the whole preceding whitespace run;
`none` when this word does not match at the end. -/
def stripEndWord (s : List Char) (w : String) : Option (List Char) :=
  let rs := s.reverse
  let wl := w.toList
  if leadsWith (wl.reverse.map Char.toLower) (rs.map Char.toLower) then
    match rs.drop wl.length with
    | c :: rest => if isWs c then some (((c :: rest).dropWhile isWs).reverse)
                   else none
    | [] => none
  else none

/-- Apply one end-anchored alternation regex: the first alternative that
matches at the end is stripped, otherwise the string is unchanged. -/
def stripSuffixAlts (s : List Char) : List String → List Char
  | [] => s
  | w :: ws =>
    match stripEndWord s w with
    | some r => r
    | none => stripSuffixAlts s ws

/-- Try to match `\s*\([^)]*\)\s*` at the head of the list; on success
return the remainder after the whole (greedy) match. -/
def parenMatchAt (s : List Char) : Option (List Char) :=
  match s.dropWhile isWs with
  | '(' :: u =>
    match u.dropWhile (fun c => !(c == ')')) with
    | ')' :: w => some (w.dropWhile isWs)
    | _ => none
  | _ => none

/-- Fuelled scan for the global replace of `\s*\([^)]*\)\s*` by the empty
string: leftmost match removed, scanning resumes after the match. -/
def remParensGo : Nat → List Char → List Char
  | 0, s => s
  | _ + 1, [] => []
  | n + 1, c :: rest =>
    match parenMatchAt (c :: rest) with
    | some a => remParensGo n a
    | none => c :: remParensGo n rest

/-- Model of `.replace(/\s*\([^)]*\)\s*/g, "")`.  Each step of the scan
consumes at least one character, so length-many fuel always suffices. -/
def remParens (s : List Char) : List Char :=
  remParensGo s.length s

/-- The heuristic cleanup of `normalizePartnerName`: strip a legal suffix,
strip a deal-descriptor suffix, remove parentheticals, trim. -/
def cleanedOf (name : String) : String :=
  String.mk (trimChars (remParens
    (stripSuffixAlts (stripSuffixAlts name.toList legalSuffixes)
      dealSuffixes)))

/-- Model of `cleaned.split(" ").length`: splitting on a single-character
separator yields one more part than there are separator occurrences. -/
def splitLen (s : String) : Nat :=
  s.toList.count ' ' + 1

/-- Action words starting a description rather than a company name. -/
def descriptionWords : List String :=
  ["pending", "continued", "enhanced", "expanded", "new", "ongoing"]

/-- Lookup in the canonical alias table (JS object property read on own
keys; every mapped value is a non-empty, hence truthy, string). -/
def lookupAlias (lower : String) : Option String :=
  List.lookup lower PARTNER_NAME_MAP

/-- The tail of the normalizer after the two exclusion checks: canonical
alias lookup, then heuristic cleanup with the plausibility, description-word
and non-emptiness gates. -/
def afterExclusion (name : String) : Option String :=
  let lower := jsLowerTrim name
  match lookupAlias lower with
  | some c => some c
  | none =>
    let cleaned := cleanedOf name
    if splitLen cleaned > 4 then none
    else if descriptionWords.any (fun w => jsStartsWith lower w) then none
    else if cleaned = "" then none
    else some cleaned

/-- Model of `normalizePartnerName` (src/lib/macro.ts lines 615-656):
lowercase and trim; exact exclusion check; partial exclusion check gated to
inputs of length ≥ 20; canonical alias lookup; heuristic cleanup with the
plausibility gate (more than 4 space-separated tokens), the
description-word gate (tested on the lowercased trimmed input), and the
final emptiness check. -/
def normalizePartnerName (name : String) : Option String :=
  let lower := jsLowerTrim name
  if EXCLUDED_PARTNERS.contains lower then none
  else if decide (20 ≤ lower.length) && hitsExclusion lower then none
  else
    match lookupAlias lower with
    | some c => some c
    | none =>
      let cleaned := cleanedOf name
      if splitLen cleaned > 4 then none
      else if descriptionWords.any (fun w => jsStartsWith lower w) then none
      else if cleaned = "" then none
      else some cleaned

/-- C5: the case-insensitive exact alias-table lookup is applied before
heuristic suffix-stripping; "MSFT", "Microsoft Corp" and
"microsoft corporation" all collapse to the canonical form "Microsoft",
and in general every input that passes both exclusion checks and whose
lowercased trimmed form is a key of the alias table returns that key's
mapped canonical form unmodified by cleanup. -/
theorem c5_alias_lookup_precedes_cleanup :
    (normalizePartnerName "MSFT" = some "Microsoft" ∧
     normalizePartnerName "Microsoft Corp" = some "Microsoft" ∧
     normalizePartnerName "microsoft corporation" = some "Microsoft") ∧
    ∀ name c : String,
      EXCLUDED_PARTNERS.contains (jsLowerTrim name) = false →
      (decide (20 ≤ (jsLowerTrim name).length) &&
        hitsExclusion (jsLowerTrim name)) = false →
      lookupAlias (jsLowerTrim name) = some c →
      normalizePartnerName name = some c := by
  refine ⟨⟨by decide, by decide, by decide⟩, ?_⟩
  intro name c h1 h2 h3
  unfold normalizePartnerName
  simp only [h1, h2, h3, Bool.false_eq_true, if_false]

/-- C5 witness: the general alias-table statement instantiated at the
concrete input "MSFT". -/
theorem c5_witness : normalizePartnerName "MSFT" = some "Microsoft" :=
  c5_alias_lookup_precedes_cleanup.2 "MSFT" "Microsoft"
    (by decide) (by decide) (by decide)

/-- C6 counterexample: for the input "(a) pending" the cleaned string is
exactly "pending" (so it begins with the description word "pending"), the
exclusion checks pass and no alias entry applies, yet the normalizer
returns `some "pending"` instead of `none` — the description-word gate
tests the lowercased trimmed input, not the cleaned string. -/
theorem c6_counterexample :
    EXCLUDED_PARTNERS.contains (jsLowerTrim "(a) pending") = false ∧
    hitsExclusion (jsLowerTrim "(a) pending") = false ∧
    lookupAlias (jsLowerTrim "(a) pending") = none ∧
    cleanedOf "(a) pending" = "pending" ∧
    jsStartsWith (cleanedOf "(a) pending") "pending" = true ∧
    normalizePartnerName "(a) pending" = some "pending" := by
  exact ⟨by decide, by decide, by decide, by decide, by decide, by decide⟩

/-- C6 amended: the description-word gate tests the lowercased trimmed
ORIGINAL input, not the cleaned string: whenever the input has no
alias-table entry and its lowercased trimmed form begins with one of
pending, continued, enhanced, expanded, new, ongoing, the normalizer
returns null. -/
theorem c6_description_gate_on_lowered_input :
    ∀ name : String,
      lookupAlias (jsLowerTrim name) = none →
      descriptionWords.any (fun w => jsStartsWith (jsLowerTrim name) w)
        = true →
      normalizePartnerName name = none := by
  intro name h1 h2
  unfold normalizePartnerName
  simp only [h1, h2]
  split
  · rfl
  · split
    · rfl
    · split
      · rfl
      · simp

/-- C6 witness: the amended description-word gate instantiated at the
concrete input "new deal", whose lowercased trimmed form begins with
"new". -/
theorem c6_witness : normalizePartnerName "new deal" = none :=
  c6_description_gate_on_lowered_input "new deal" (by decide) (by decide)

/-- C7: inputs that are not exact members of the exclusion set and whose
lowercased trimmed form is shorter than 20 characters are never discarded
by the substring-exclusion check — they proceed to alias lookup and
heuristic cleanup; such inputs of length 20 or more that contain an
excluded term or are contained in one are discarded. -/
theorem c7_substring_exclusion_length_gate :
    ∀ name : String,
      EXCLUDED_PARTNERS.contains (jsLowerTrim name) = false →
      ((jsLowerTrim name).length < 20 →
        normalizePartnerName name = afterExclusion name) ∧
      (20 ≤ (jsLowerTrim name).length →
        hitsExclusion (jsLowerTrim name) = true →
        normalizePartnerName name = none) := by
  intro name h1
  constructor
  · intro hlt
    have hd : decide (20 ≤ (jsLowerTrim name).length) = false := by
      simp [Nat.not_le.mpr hlt]
    unfold normalizePartnerName afterExclusion
    simp only [h1, hd, Bool.false_and, Bool.false_eq_true, if_false]
  · intro hge hhit
    have hd : decide (20 ≤ (jsLowerTrim name).length) = true := by
      simp [hge]
    unfold normalizePartnerName
    simp only [h1, hd, hhit, Bool.true_and, Bool.false_eq_true, if_false,
      if_true]

/-- C7 witness: both halves of the length gate at concrete inputs — the
4-character "msft" proceeds past the substring check, while the
33-character "the cloud service providers group" (which contains the
excluded term "cloud service providers") is discarded. -/
theorem c7_witness :
    normalizePartnerName "msft" = afterExclusion "msft" ∧
    normalizePartnerName "the cloud service providers group" = none :=
  ⟨((c7_substring_exclusion_length_gate "msft" (by decide)).1 (by decide)),
   ((c7_substring_exclusion_length_gate "the cloud service providers group"
      (by decide)).2 (by decide) (by decide))⟩

/-- C10: on the heuristic-cleanup fallback path the normalizer strips
suffixes and parentheticals case-insensitively but keeps the remaining
characters in their original case, so "Acme Inc" and "ACME INC" yield two
different canonical strings, while case variants collapse only through the
alias table (both "MSFT" and "msft" map to "Microsoft"). -/
theorem c10_cleanup_keeps_original_case :
    normalizePartnerName "Acme Inc" = some "Acme" ∧
    normalizePartnerName "ACME INC" = some "ACME" ∧
    "Acme" ≠ "ACME" ∧
    normalizePartnerName "Acme (NY)" = some "Acme" ∧
    normalizePartnerName "MSFT" = some "Microsoft" ∧
    normalizePartnerName "msft" = some "Microsoft" := by
  exact ⟨by decide, by decide, by decide, by decide, by decide, by decide⟩

/-! ## Data model of the stored earnings records -/

/-- Static company metadata, the fields the engine reads. -/
structure Company where
  ticker : String
  sector : String
  subCategory : String
deriving DecidableEq

/-- The per-quarter structured insight record.  A field of type
`Option JsNum` is `none` when the JSON attribute is `null`/absent, and
`some none` when it holds the number `NaN`. -/
structure Insights where
  capexGrowth : Option JsNum := none
  guidanceDirection : Option String := none
  aiInvestmentMentioned : Bool := false
  partnerships : Option (List String) := none
  supplyChainStatus : Option String := none
  headcountTrend : Option String := none
  pricingPower : Option String := none
  overallSentiment : Option String := none
  revenue : Option JsNum := none
deriving DecidableEq

/-- One stored report: quarter label plus optionally-present insights. -/
structure Report where
  quarter : String
  insights : Option Insights
deriving DecidableEq

/-- The per-ticker record set loaded from one JSON file. -/
structure CompanyData where
  company : Company
  reports : List Report
deriving DecidableEq

/-- The loaded earnings map (`Map<ticker, CompanyEarningsData>`), as an
insertion-ordered association list with unique keys. -/
abbrev EarningsMap := List (String × CompanyData)

/-- One selected (ticker, company, insights) triple for the target
quarter. -/
structure QR where
  ticker : String
  company : Company
  insights : Insights
deriving DecidableEq

/-! ## Stable sorting, modelling `Array.prototype.sort` (stable) -/

/-- Insert before the first strictly-smaller key: the stable insertion for
a descending sort, placing equal keys after the earlier elements. -/
def insertDesc {α β : Type} [LinearOrder β] (key : α → β) (x : α) :
    List α → List α
  | [] => [x]
  | y :: ys => if key y < key x then x :: y :: ys else y :: insertDesc key x ys

/-- Stable sort descending by key — extensionally equal to the stable JS
`sort((a, b) => key(b) - key(a))`. -/
def sortByDesc {α β : Type} [LinearOrder β] (key : α → β) : List α → List α
  | [] => []
  | x :: xs => insertDesc key x (sortByDesc key xs)

/-- Lexicographic strict comparison of character lists, the model of the
JS `<` comparison the default sort uses on strings. -/
def jsStrLtChars : List Char → List Char → Bool
  | [], [] => false
  | [], _ :: _ => true
  | _ :: _, [] => false
  | a :: as, b :: bs =>
    if a < b then true else if b < a then false else jsStrLtChars as bs

/-- Lexicographic strict comparison of strings. -/
def jsStrLt (a b : String) : Bool :=
  jsStrLtChars a.toList b.toList

/-- Insert before the first strictly-greater element: the stable insertion
for an ascending sort. -/
def insertAscStr (x : String) : List String → List String
  | [] => [x]
  | y :: ys => if jsStrLt x y then x :: y :: ys else y :: insertAscStr x ys

/-- Stable ascending lexicographic sort of strings, modelling the default
`Array.prototype.sort()` on string arrays. -/
def sortAscStr : List String → List String
  | [] => []
  | x :: xs => insertAscStr x (sortAscStr xs)

/-! ## computeMacroAnalysis (src/lib/macro.ts lines 693-1019) -/

/-- JS `Set.add` on a set modelled as a dedup insertion-ordered list. -/
def addTicker (s : List String) (t : String) : List String :=
  if t ∈ s then s else s ++ [t]

/-- Add one (canonical partner, ticker) mention into the partnership map,
creating the key at the end on first sight, and adding the ticker to the
key's set otherwise. -/
def addMention : List (String × List String) → String → String →
    List (String × List String)
  | [], p, t => [(p, [t])]
  | (q, ts) :: rest, p, t =>
    if q = p then (q, addTicker ts t) :: rest
    else (q, ts) :: addMention rest p t

/-- Process one raw mention: normalize it and record the ticker on
success, leave the map unchanged on a discard. -/
def mentionStep (t : String) (m : List (String × List String))
    (raw : String) : List (String × List String) :=
  match normalizePartnerName raw with
  | some c => addMention m c t
  | none => m

/-- Process one company's raw partnership mentions into the map. -/
def addCompanyMentions (m : List (String × List String)) (t : String)
    (parts : List String) : List (String × List String) :=
  parts.foldl (mentionStep t) m

/-- Fold step of the top-level partnership-map construction. -/
def partnershipStep (m : List (String × List String)) (qr : QR) :
    List (String × List String) :=
  match qr.insights.partnerships with
  | some ps => addCompanyMentions m qr.ticker ps
  | none => m

/-- The whole `partnershipMap : Map<string, Set<string>>`. -/
def buildPartnershipMap (qrs : List QR) : List (String × List String) :=
  qrs.foldl partnershipStep []

/-- A partnership-network edge of the result. -/
structure PartnerEdge where
  partner : String
  mentions : Nat
  connectedCompanies : List String
deriving DecidableEq

/-- All candidate edges, sorted descending by mentions
(`allPartnerships` in the source). -/
def allPartnershipsOf (qrs : List QR) : List PartnerEdge :=
  sortByDesc (fun e => e.mentions)
    ((buildPartnershipMap qrs).map (fun pts =>
      ⟨pts.1, pts.2.length, pts.2⟩))

/-- The published network: edges with ≥ 2 mentions when any exist,
otherwise the top 15 candidates. -/
def partnershipNetworkOf (qrs : List QR) : List PartnerEdge :=
  let all := allPartnershipsOf qrs
  let cross := all.filter (fun p => 2 ≤ p.mentions)
  if cross.length > 0 then cross else all.take 15

/-- JS `Set.add` for quarter labels, preserving insertion order. -/
def pushQuarter (acc : List String) (r : Report) : List String :=
  if r.quarter ∈ acc then acc else acc ++ [r.quarter]

/-- Collect one company's quarter labels into the accumulator. -/
def quartersStep (acc : List String) (td : String × CompanyData) :
    List String :=
  td.2.reports.foldl pushQuarter acc

/-- Resolution of the analysis quarter from the data: collect the set of
all quarter labels in iteration order, sort, reverse, take the first
(`|| "Unknown"` treats both a missing head and the falsy empty string as
the sentinel). -/
def allQuartersOf (db : EarningsMap) : List String :=
  db.foldl quartersStep []

/-- Pick the analysis quarter from the data alone. -/
def resolveFromData (db : EarningsMap) : String :=
  match (sortAscStr (allQuartersOf db)).reverse with
  | [] => "Unknown"
  | q :: _ => if q = "" then "Unknown" else q

/-- Period resolution: an omitted (or falsy empty) `targetQuarter` is
resolved from the data. -/
def resolvePeriod (db : EarningsMap) (targetQuarter : Option String) :
    String :=
  match targetQuarter with
  | some q => if q = "" then resolveFromData db else q
  | none => resolveFromData db

/-- Per-company selection: the first report whose quarter matches, kept
only when its insights are present. -/
def quarterReportsOf (db : EarningsMap) (aq : String) : List QR :=
  db.filterMap (fun td =>
    (td.2.reports.find? (fun r => r.quarter == aq)).bind (fun r =>
      r.insights.map (fun i => ⟨td.1, td.2.company, i⟩)))

/-- The numeric value of `capexGrowth` when present and not NaN
(`insights.capexGrowth != null && !isNaN(insights.capexGrowth)`). -/
def numericCapex (i : Insights) : Option ℚ :=
  match i.capexGrowth with
  | some (some q) => some q
  | _ => none

/-- JS `capexGrowth != null && capexGrowth > bound` (false on NaN). -/
def capexAbove (i : Insights) (bound : ℚ) : Bool :=
  match i.capexGrowth with
  | some (some q) => decide (bound < q)
  | _ => false

/-- JS `capexGrowth != null && capexGrowth < bound` (false on NaN). -/
def capexBelow (i : Insights) (bound : ℚ) : Bool :=
  match i.capexGrowth with
  | some (some q) => decide (q < bound)
  | _ => false

/-- Sentiment score: bullish ↦ 1, bearish ↦ -1, anything else ↦ 0. -/
def sentimentScoreOf (i : Insights) : ℤ :=
  if i.overallSentiment = some "bullish" then 1
  else if i.overallSentiment = some "bearish" then -1
  else 0

/-- NaN-propagating addition of JS numbers. -/
def jsAdd (a b : JsNum) : JsNum :=
  match a, b with
  | some x, some y => some (x + y)
  | _, _ => none

/-- NaN-propagating division of a JS number by a positive count. -/
def jsDivNat (x : JsNum) (n : Nat) : JsNum :=
  x.map (fun q => q / (n : ℚ))

/-- A per-bucket partnership-table entry. -/
structure SectorPartner where
  partner : String
  mentions : Nat
deriving DecidableEq

/-- JS `Map.set(p, (map.get(p) || 0) + 1)`: raw-mention counting. -/
def addCount : List (String × Nat) → String → List (String × Nat)
  | [], p => [(p, 1)]
  | (q, n) :: rest, p =>
    if q = p then (q, n + 1) :: rest else (q, n) :: addCount rest p

/-- The per-bucket partnership map counts RAW mentions, one increment per
normalized mention occurrence. -/
def sectorPartnershipMapOf (qrs : List QR) : List (String × Nat) :=
  qrs.foldl (fun m qr =>
    match qr.insights.partnerships with
    | some ps => ps.foldl (fun m raw =>
        match normalizePartnerName raw with
        | some c => addCount m c
        | none => m) m
    | none => m) []

/-- Per-bucket top partners: entries with ≥ 2 raw mentions (top 5) when
any exist, otherwise the top 3. -/
def topPartnersOf (qrs : List QR) : List SectorPartner :=
  let all := sortByDesc (fun p => p.mentions)
    ((sectorPartnershipMapOf qrs).map (fun pn => ⟨pn.1, pn.2⟩))
  if (all.filter (fun p => 2 ≤ p.mentions)).length > 0 then
    (all.filter (fun p => 2 ≤ p.mentions)).take 5
  else all.take 3

/-- One sector-analysis bucket of the result (guidance and supply-chain
frequency tables flattened into named counters). -/
structure SectorAnalysisR where
  sector : String
  subCategory : String
  companies : List String
  averageRevenueGrowth : ℚ
  averageCapexGrowth : JsNum
  guidanceRaised : Nat
  guidanceMaintained : Nat
  guidanceLowered : Nat
  guidanceNotProvided : Nat
  scTight : Nat
  scEasing : Nat
  scNormal : Nat
  scUnknown : Nat
  aiInvestmentPercentage : ℚ
  averageSentiment : ℚ
  topPartners : List SectorPartner
deriving DecidableEq

/-- Split a string at each colon (JS `sectorKey.split(":")`). -/
def splitColon (s : String) : List String :=
  go s.toList [] where
  go : List Char → List Char → List String
    | [], acc => [String.mk acc.reverse]
    | c :: rest, acc =>
      if c = ':' then String.mk acc.reverse :: go rest []
      else go rest (c :: acc)

/-- The composite grouping key `sector:subCategory`. -/
def sectorKeyOf (c : Company) : String :=
  c.sector ++ ":" ++ c.subCategory

/-- Append a member to its group, creating new groups at the end. -/
def addGroup : List (String × List QR) → String → QR →
    List (String × List QR)
  | [], k, x => [(k, [x])]
  | (q, xs) :: rest, k, x =>
    if q = k then (q, xs ++ [x]) :: rest
    else (q, xs) :: addGroup rest k x

/-- Group the selected companies by the composite sector key, in insertion
order. -/
def groupBySector (qrs : List QR) : List (String × List QR) :=
  qrs.foldl (fun m qr => addGroup m (sectorKeyOf qr.company) qr) []

/-- The values contributing to the per-bucket capex sum: each present
`capexGrowth`, NaN included (the bucket loop only checks `!= null`). -/
def bucketCapexValues (qrs : List QR) : List JsNum :=
  qrs.filterMap (fun qr => qr.insights.capexGrowth)

/-- Compute one sector-analysis bucket from its grouped members. -/
def sectorAnalysisOf (key : String) (qrs : List QR) : SectorAnalysisR :=
  let parts := splitColon key
  let capexVals := bucketCapexValues qrs
  { sector := parts.headD ""
    subCategory := (parts.drop 1).headD ""
    companies := qrs.map (fun r => r.ticker)
    averageRevenueGrowth := 0
    averageCapexGrowth :=
      if capexVals.length > 0 then
        jsDivNat (capexVals.foldl jsAdd (some 0)) capexVals.length
      else some 0
    guidanceRaised := qrs.countP (fun r =>
      r.insights.guidanceDirection == some "raised")
    guidanceMaintained := qrs.countP (fun r =>
      r.insights.guidanceDirection == some "maintained")
    guidanceLowered := qrs.countP (fun r =>
      r.insights.guidanceDirection == some "lowered")
    guidanceNotProvided := qrs.countP (fun r =>
      r.insights.guidanceDirection == some "not_provided")
    scTight := qrs.countP (fun r =>
      r.insights.supplyChainStatus == some "tight")
    scEasing := qrs.countP (fun r =>
      r.insights.supplyChainStatus == some "easing")
    scNormal := qrs.countP (fun r =>
      r.insights.supplyChainStatus == some "normal")
    scUnknown := qrs.countP (fun r =>
      r.insights.supplyChainStatus == some "unknown")
    aiInvestmentPercentage :=
      ((qrs.countP (fun r => r.insights.aiInvestmentMentioned) : ℚ) /
        (qrs.length : ℚ)) * 100
    averageSentiment :=
      ((qrs.map (fun r => sentimentScoreOf r.insights)).sum : ℚ) /
        (qrs.length : ℚ)
    topPartners := topPartnersOf qrs }

/-- A divergence entry of the result. -/
structure DivergenceR where
  theme : String
  winners : List String
  losers : List String
  details : String
deriving DecidableEq

/-- The aggregate-insights block of the result (the three frequency tables
flattened into named counters). -/
structure AggregateInsights where
  averageCapexGrowth : ℚ
  companiesRaisingGuidance : Nat
  companiesLoweringGuidance : Nat
  aiInvestmentCount : Nat
  overallMarketSentiment : String
  partnershipNetwork : List PartnerEdge
  scTight : Nat
  scEasing : Nat
  scNormal : Nat
  scUnknown : Nat
  hcExpanding : Nat
  hcStable : Nat
  hcFreezing : Nat
  hcReducing : Nat
  ppStrong : Nat
  ppModerate : Nat
  ppWeak : Nat
  ppUnknown : Nat
deriving DecidableEq

/-- The full `MacroAnalysis` result (the IO-derived `generatedAt`
timestamp is outside the embedding). -/
structure MacroAnalysisR where
  period : String
  companies : List String
  aggregateInsights : AggregateInsights
  sectorAnalyses : List SectorAnalysisR
  divergences : List DivergenceR
  topThemes : List String
deriving DecidableEq

/-- Model of `computeMacroAnalysis` on an already-loaded earnings map
(the directory read of `loadAllEarningsData` is the external input).  The
function is total: the embedding returning a value for every input models
the exception-freedom of the source on data-shape grounds. -/
def computeMacroAnalysis (db : EarningsMap) (targetQuarter : Option String) :
    MacroAnalysisR :=
  let aq := resolvePeriod db targetQuarter
  let qrs := quarterReportsOf db aq
  let capexVals := qrs.filterMap (fun qr => numericCapex qr.insights)
  let guidanceRaised := qrs.countP (fun r =>
    r.insights.guidanceDirection == some "raised")
  let guidanceLowered := qrs.countP (fun r =>
    r.insights.guidanceDirection == some "lowered")
  let aiInvestmentCount := qrs.countP (fun r =>
    r.insights.aiInvestmentMentioned)
  let scTight := qrs.countP (fun r =>
    r.insights.supplyChainStatus == some "tight")
  let scEasing := qrs.countP (fun r =>
    r.insights.supplyChainStatus == some "easing")
  let hcExpanding := qrs.countP (fun r =>
    r.insights.headcountTrend == some "expanding")
  let hcReducing := qrs.countP (fun r =>
    r.insights.headcountTrend == some "reducing")
  let raisers := (qrs.filter (fun r =>
    r.insights.guidanceDirection == some "raised")).map (fun r => r.ticker)
  let lowerers := (qrs.filter (fun r =>
    r.insights.guidanceDirection == some "lowered")).map (fun r => r.ticker)
  let highCapex := (qrs.filter (fun r =>
    capexAbove r.insights 20)).map (fun r => r.ticker)
  let lowCapex := (qrs.filter (fun r =>
    capexBelow r.insights (-10))).map (fun r => r.ticker)
  { period := aq
    companies := qrs.map (fun r => r.ticker)
    aggregateInsights :=
    { averageCapexGrowth :=
        if capexVals.length > 0 then
          capexVals.sum / (capexVals.length : ℚ)
        else 0
      companiesRaisingGuidance := guidanceRaised
      companiesLoweringGuidance := guidanceLowered
      aiInvestmentCount := aiInvestmentCount
      overallMarketSentiment :=
        if qrs.length = 0 then "neutral"
        else
          let avg : ℚ :=
            ((qrs.map (fun r => sentimentScoreOf r.insights)).sum : ℚ) /
              (qrs.length : ℚ)
          if avg > 3 / 10 then "bullish"
          else if avg < -(3 / 10) then "bearish"
          else "neutral"
      partnershipNetwork := partnershipNetworkOf qrs
      scTight := scTight
      scEasing := scEasing
      scNormal := qrs.countP (fun r =>
        r.insights.supplyChainStatus == some "normal")
      scUnknown := qrs.countP (fun r =>
        r.insights.supplyChainStatus == some "unknown")
      hcExpanding := hcExpanding
      hcStable := qrs.countP (fun r =>
        r.insights.headcountTrend == some "stable")
      hcFreezing := qrs.countP (fun r =>
        r.insights.headcountTrend == some "freezing")
      hcReducing := hcReducing
      ppStrong := qrs.countP (fun r =>
        r.insights.pricingPower == some "strong")
      ppModerate := qrs.countP (fun r =>
        r.insights.pricingPower == some "moderate")
      ppWeak := qrs.countP (fun r =>
        r.insights.pricingPower == some "weak")
      ppUnknown := qrs.countP (fun r =>
        r.insights.pricingPower == some "unknown") }
    sectorAnalyses := (groupBySector qrs).map (fun kg =>
      sectorAnalysisOf kg.1 kg.2)
    divergences :=
      (if raisers ≠ [] ∨ lowerers ≠ [] then
        [⟨"Guidance Direction", raisers, lowerers,
          toString raisers.length ++ " companies raised guidance vs " ++
            toString lowerers.length ++ " lowered"⟩]
      else []) ++
      (if highCapex ≠ [] ∨ lowCapex ≠ [] then
        [⟨"Capital Expenditure", highCapex, lowCapex,
          toString highCapex.length ++
            " companies increasing capex >20% vs " ++
            toString lowCapex.length ++ " decreasing >10%"⟩]
      else [])
    topThemes :=
      (if 2 * aiInvestmentCount > qrs.length then
        ["AI Infrastructure Investment"] else []) ++
      (if scEasing > scTight then ["Supply Chain Easing"]
       else if scTight > scEasing then ["Supply Chain Constraints"]
       else []) ++
      (if guidanceRaised > 2 * guidanceLowered then ["Optimistic Outlook"]
       else if guidanceLowered > guidanceRaised then ["Cautious Guidance"]
       else []) ++
      (if hcReducing > hcExpanding then ["Cost Cutting Measures"]
       else []) }

/-! ## Lemmas about the stable sorts -/

theorem mem_insertDesc {α β : Type} [LinearOrder β] (key : α → β)
    {x a : α} {l : List α} :
    a ∈ insertDesc key x l ↔ a = x ∨ a ∈ l := by
  induction l with
  | nil => simp [insertDesc]
  | cons y ys ih =>
    by_cases h : key y < key x <;> simp [insertDesc, h, ih] <;> tauto

theorem mem_sortByDesc {α β : Type} [LinearOrder β] (key : α → β)
    {a : α} {l : List α} :
    a ∈ sortByDesc key l ↔ a ∈ l := by
  induction l with
  | nil => simp [sortByDesc]
  | cons x xs ih => simp [sortByDesc, mem_insertDesc, ih]

theorem length_insertDesc {α β : Type} [LinearOrder β] (key : α → β)
    (x : α) (l : List α) :
    (insertDesc key x l).length = l.length + 1 := by
  induction l with
  | nil => rfl
  | cons y ys ih =>
    by_cases h : key y < key x <;> simp [insertDesc, h, ih]

theorem length_sortByDesc {α β : Type} [LinearOrder β] (key : α → β)
    (l : List α) : (sortByDesc key l).length = l.length := by
  induction l with
  | nil => rfl
  | cons x xs ih => simp [sortByDesc, length_insertDesc, ih]

theorem pairwise_insertDesc {α β : Type} [LinearOrder β] (key : α → β)
    {x : α} {l : List α}
    (h : l.Pairwise (fun a b => key b ≤ key a)) :
    (insertDesc key x l).Pairwise (fun a b => key b ≤ key a) := by
  induction l with
  | nil => simp [insertDesc]
  | cons y ys ih =>
    rcases List.pairwise_cons.mp h with ⟨hy, hys⟩
    by_cases hk : key y < key x
    · simp only [insertDesc, hk, if_true]
      refine List.pairwise_cons.mpr ⟨?_, h⟩
      intro b hb
      rcases List.mem_cons.mp hb with rfl | hb
      · exact le_of_lt hk
      · exact le_trans (hy b hb) (le_of_lt hk)
    · simp only [insertDesc, hk, if_false]
      refine List.pairwise_cons.mpr ⟨?_, ih hys⟩
      intro b hb
      rcases (mem_insertDesc key).mp hb with rfl | hb
      · exact le_of_not_lt hk
      · exact hy b hb

theorem pairwise_sortByDesc {α β : Type} [LinearOrder β] (key : α → β)
    (l : List α) :
    (sortByDesc key l).Pairwise (fun a b => key b ≤ key a) := by
  induction l with
  | nil => simp [sortByDesc]
  | cons x xs ih => exact pairwise_insertDesc key ih

theorem jsStrLtChars_irrefl (l : List Char) : jsStrLtChars l l = false := by
  induction l with
  | nil => rfl
  | cons a as ih => simp [jsStrLtChars, ih]

theorem jsStrLtChars_trans : ∀ {x y z : List Char},
    jsStrLtChars x y = true → jsStrLtChars y z = true →
    jsStrLtChars x z = true := by
  intro x
  induction x with
  | nil =>
    intro y z hxy hyz
    cases y with
    | nil => cases hxy
    | cons b bs =>
      cases z with
      | nil => cases hyz
      | cons c cs => rfl
  | cons a as ih =>
    intro y z hxy hyz
    cases y with
    | nil => cases hxy
    | cons b bs =>
      cases z with
      | nil => cases hyz
      | cons c cs =>
        rw [jsStrLtChars] at hxy hyz ⊢
        rcases lt_trichotomy a b with hab | hab | hab
        · rcases lt_trichotomy b c with hbc | hbc | hbc
          · simp [lt_trans hab hbc]
          · subst hbc; simp [hab]
          · rw [if_neg (lt_asymm hbc), if_pos hbc] at hyz; cases hyz
        · subst hab
          rcases lt_trichotomy a c with hac | hac | hac
          · simp [hac]
          · subst hac
            rw [if_neg (lt_irrefl a), if_neg (lt_irrefl a)] at hxy hyz ⊢
            exact ih hxy hyz
          · rw [if_neg (lt_asymm hac), if_pos hac] at hyz; cases hyz
        · rw [if_neg (lt_asymm hab), if_pos hab] at hxy; cases hxy

theorem jsStrLtChars_asymm : ∀ {x y : List Char},
    jsStrLtChars x y = true → jsStrLtChars y x = false := by
  intro x y hxy
  by_contra h
  have hyx : jsStrLtChars y x = true := by
    cases hres : jsStrLtChars y x with
    | false => exact absurd hres h
    | true => rfl
  have := jsStrLtChars_trans hxy hyx
  rw [jsStrLtChars_irrefl] at this
  cases this

theorem mem_insertAscStr {x a : String} {l : List String} :
    a ∈ insertAscStr x l ↔ a = x ∨ a ∈ l := by
  induction l with
  | nil => simp [insertAscStr]
  | cons y ys ih =>
    cases h : jsStrLt x y <;> simp [insertAscStr, h, ih] <;> tauto

theorem mem_sortAscStr {a : String} {l : List String} :
    a ∈ sortAscStr l ↔ a ∈ l := by
  induction l with
  | nil => simp [sortAscStr]
  | cons x xs ih => simp [sortAscStr, mem_insertAscStr, ih]

theorem pairwise_insertAscStr {x : String} {l : List String}
    (h : l.Pairwise (fun a b => jsStrLt b a = false)) :
    (insertAscStr x l).Pairwise (fun a b => jsStrLt b a = false) := by
  induction l with
  | nil => simp [insertAscStr]
  | cons y ys ih =>
    rcases List.pairwise_cons.mp h with ⟨hy, hys⟩
    cases hk : jsStrLt x y with
    | true =>
      simp only [insertAscStr, hk, if_true]
      refine List.pairwise_cons.mpr ⟨?_, h⟩
      intro b hb
      rcases List.mem_cons.mp hb with rfl | hb
      · exact jsStrLtChars_asymm hk
      · cases hbx : jsStrLt b x with
        | false => rfl
        | true =>
          have : jsStrLt b y = true := jsStrLtChars_trans hbx hk
          rw [hy b hb] at this
          cases this
    | false =>
      simp only [insertAscStr, hk, if_false]
      refine List.pairwise_cons.mpr ⟨?_, ih hys⟩
      intro b hb
      rcases mem_insertAscStr.mp hb with rfl | hb
      · exact hk
      · exact hy b hb

theorem pairwise_sortAscStr (l : List String) :
    (sortAscStr l).Pairwise (fun a b => jsStrLt b a = false) := by
  induction l with
  | nil => simp [sortAscStr]
  | cons x xs ih => exact pairwise_insertAscStr ih

/-! ## The dedup invariant of the partnership map -/

theorem nodup_addTicker {s : List String} (h : s.Nodup) (t : String) :
    (addTicker s t).Nodup := by
  unfold addTicker
  split
  · exact h
  · exact (List.perm_append_singleton t s).nodup_iff.mpr
      (List.nodup_cons.mpr ⟨by assumption, h⟩)

theorem nodup_addMention {m : List (String × List String)} {p t : String}
    (h : ∀ e ∈ m, e.2.Nodup) :
    ∀ e ∈ addMention m p t, e.2.Nodup := by
  induction m with
  | nil =>
    intro e he
    simp only [addMention, List.mem_singleton] at he
    subst he; exact List.nodup_singleton t
  | cons hd rest ih =>
    intro e he
    rw [addMention] at he
    split at he
    · rcases List.mem_cons.mp he with rfl | hmem
      · exact nodup_addTicker (h hd (List.mem_cons_self hd rest)) t
      · exact h e (List.mem_cons_of_mem hd hmem)
    · rcases List.mem_cons.mp he with rfl | hmem
      · exact h hd (List.mem_cons_self hd rest)
      · exact ih (fun e he => h e (List.mem_cons_of_mem hd he)) e hmem

theorem nodup_mentionStep {m : List (String × List String)} {t raw : String}
    (h : ∀ e ∈ m, e.2.Nodup) :
    ∀ e ∈ mentionStep t m raw, e.2.Nodup := by
  unfold mentionStep
  split
  · exact nodup_addMention h
  · exact h

theorem nodup_foldl_mentionStep {t : String} (ps : List String) :
    ∀ m : List (String × List String), (∀ e ∈ m, e.2.Nodup) →
      ∀ e ∈ ps.foldl (mentionStep t) m, e.2.Nodup := by
  induction ps with
  | nil => intro m h; exact h
  | cons raw rest ih =>
    intro m h
    exact ih (mentionStep t m raw) (nodup_mentionStep h)

theorem nodup_partnershipStep {m : List (String × List String)} {qr : QR}
    (h : ∀ e ∈ m, e.2.Nodup) :
    ∀ e ∈ partnershipStep m qr, e.2.Nodup := by
  unfold partnershipStep
  split
  · exact nodup_foldl_mentionStep _ m h
  · exact h

theorem nodup_buildPartnershipMap (qrs : List QR) :
    ∀ e ∈ buildPartnershipMap qrs, e.2.Nodup := by
  have general : ∀ (l : List QR) (m : List (String × List String)),
      (∀ e ∈ m, e.2.Nodup) → ∀ e ∈ l.foldl partnershipStep m, e.2.Nodup := by
    intro l
    induction l with
    | nil => intro m h; exact h
    | cons qr rest ih =>
      intro m h
      exact ih (partnershipStep m qr) (nodup_partnershipStep h)
  exact general qrs [] (by intro e he; cases he)

/-! ## Claims about the aggregated partnership network -/

theorem partnershipNetwork_eq (db : EarningsMap) (tq : Option String) :
    (computeMacroAnalysis db tq).aggregateInsights.partnershipNetwork =
      partnershipNetworkOf (quarterReportsOf db (resolvePeriod db tq)) :=
  rfl

theorem mem_allPartnershipsOf_of_mem_network {db : EarningsMap}
    {tq : Option String} {e : PartnerEdge}
    (he : e ∈ (computeMacroAnalysis db tq).aggregateInsights.partnershipNetwork) :
    e ∈ allPartnershipsOf (quarterReportsOf db (resolvePeriod db tq)) := by
  rw [partnershipNetwork_eq] at he
  simp only [partnershipNetworkOf] at he
  split at he
  · exact List.mem_of_mem_filter he
  · exact (List.take_sublist 15 _).subset he

/-- C1: every edge of the top-level partnership network satisfies
`mentions = |connectedCompanies|` with a duplicate-free connected-company
list, so a company whose selected-quarter partnerships list mentions the
same partner twice is counted once, never doubled. -/
theorem c1_mentions_eq_distinct_companies (db : EarningsMap)
    (tq : Option String) (e : PartnerEdge)
    (he : e ∈ (computeMacroAnalysis db tq).aggregateInsights.partnershipNetwork) :
    e.mentions = e.connectedCompanies.length ∧ e.connectedCompanies.Nodup := by
  have hall := mem_allPartnershipsOf_of_mem_network he
  have hmap : e ∈ (buildPartnershipMap
      (quarterReportsOf db (resolvePeriod db tq))).map (fun pts =>
        (⟨pts.1, pts.2.length, pts.2⟩ : PartnerEdge)) :=
    (mem_sortByDesc _).mp hall
  rcases List.mem_map.mp hmap with ⟨pts, hpts, rfl⟩
  exact ⟨rfl, nodup_buildPartnershipMap _ pts hpts⟩

/-- The earnings map of the C1 witness: one company whose quarter record
mentions the same partner twice. -/
def c1db : EarningsMap :=
  [("AAA", ⟨⟨"AAA", "Technology", "AI"⟩,
    [⟨"Q1 2025", some { partnerships := some ["OpenAI", "OpenAI"] }⟩]⟩)]

/-- C1 witness: on a company mentioning "OpenAI" twice in one quarter, the
resulting edge is in the network and counts the company once. -/
theorem c1_witness :
    (⟨"OpenAI", 1, ["AAA"]⟩ : PartnerEdge) ∈
      (computeMacroAnalysis c1db none).aggregateInsights.partnershipNetwork ∧
    ((⟨"OpenAI", 1, ["AAA"]⟩ : PartnerEdge).mentions =
      (⟨"OpenAI", 1, ["AAA"]⟩ : PartnerEdge).connectedCompanies.length ∧
     (⟨"OpenAI", 1, ["AAA"]⟩ : PartnerEdge).connectedCompanies.Nodup) :=
  ⟨by decide, c1_mentions_eq_distinct_companies c1db none _ (by decide)⟩

/-! ## Null-safety of the aggregate capex average -/

theorem averageCapexGrowth_eq (db : EarningsMap) (tq : Option String) :
    (computeMacroAnalysis db tq).aggregateInsights.averageCapexGrowth =
      (if ((quarterReportsOf db (resolvePeriod db tq)).filterMap
            (fun qr => numericCapex qr.insights)).length > 0 then
        ((quarterReportsOf db (resolvePeriod db tq)).filterMap
            (fun qr => numericCapex qr.insights)).sum /
          (((quarterReportsOf db (resolvePeriod db tq)).filterMap
            (fun qr => numericCapex qr.insights)).length : ℚ)
      else 0) :=
  rfl

/-- C2: when zero selected companies report a numeric `capexGrowth`
(including the empty record set and a quarter no record matches),
`computeMacroAnalysis` yields `averageCapexGrowth = 0` — the embedding
carries the average in ℚ, so no NaN can be produced — and on the empty
record set every part of the result is a well-formed empty/neutral value
(the embedding is a total function, modelling exception-freedom). -/
theorem c2_average_capex_null_safety (db : EarningsMap)
    (tq : Option String) :
    ((quarterReportsOf db (resolvePeriod db tq)).all
        (fun qr => (numericCapex qr.insights).isNone) = true →
      (computeMacroAnalysis db tq).aggregateInsights.averageCapexGrowth = 0) ∧
    (db = [] →
      (computeMacroAnalysis db tq).companies = [] ∧
      (computeMacroAnalysis db tq).aggregateInsights.averageCapexGrowth = 0 ∧
      (computeMacroAnalysis db tq).aggregateInsights.partnershipNetwork
        = [] ∧
      (computeMacroAnalysis db tq).sectorAnalyses = [] ∧
      (computeMacroAnalysis db tq).divergences = [] ∧
      (computeMacroAnalysis db tq).topThemes = [] ∧
      (computeMacroAnalysis db tq).aggregateInsights.overallMarketSentiment
        = "neutral") := by
  constructor
  · intro h
    rw [averageCapexGrowth_eq]
    have hnil : (quarterReportsOf db (resolvePeriod db tq)).filterMap
        (fun qr => numericCapex qr.insights) = [] := by
      rw [List.filterMap_eq_nil_iff]
      intro qr hqr
      have := List.all_eq_true.mp h qr hqr
      simpa [Option.isNone_iff_eq_none] using this
    rw [hnil]
    simp
  · rintro rfl
    exact ⟨rfl, rfl, rfl, rfl, rfl, rfl, rfl⟩

/-- C2 witness: the empty record set with no target quarter. -/
theorem c2_witness :
    (computeMacroAnalysis [] none).aggregateInsights.averageCapexGrowth
      = 0 ∧
    (computeMacroAnalysis [] none).companies = [] :=
  ⟨(c2_average_capex_null_safety [] none).1 (by decide),
   ((c2_average_capex_null_safety [] none).2 rfl).1⟩

/-! ## The per-bucket partnership table counts raw mentions -/

/-- The earnings map of the C3 failing input: a single company whose
selected-quarter partnerships list contains the same partner twice. -/
def c3db : EarningsMap :=
  [("AAA", ⟨⟨"AAA", "Technology", "AI"⟩,
    [⟨"Q1 2025", some { partnerships := some ["OpenAI", "OpenAI"] }⟩]⟩)]

/-- C3: evaluating the code at the failing input shows the per-bucket
partnership table counting RAW mentions: the single company "AAA"
mentioning "OpenAI" twice yields a bucket entry with `mentions = 2`,
while the top-level network of step 4 (the contract the spec fixes)
counts the same data as 1 distinct company. -/
theorem c3_bucket_counts_raw_mentions :
    (computeMacroAnalysis c3db none).companies = ["AAA"] ∧
    (computeMacroAnalysis c3db none).sectorAnalyses.map
        (fun s => s.topPartners) = [[⟨"OpenAI", 2⟩]] ∧
    (computeMacroAnalysis c3db none).aggregateInsights.partnershipNetwork
      = [⟨"OpenAI", 1, ["AAA"]⟩] := by
  exact ⟨by decide, by decide, by decide⟩

/-! ## The two-tier quality filter of the partnership network -/

theorem addMention_ne_nil (m : List (String × List String)) (p t : String) :
    addMention m p t ≠ [] := by
  cases m with
  | nil => simp [addMention]
  | cons hd rest =>
    rw [addMention]
    split <;> simp

theorem mentionStep_ne_nil {m : List (String × List String)}
    {t raw : String} (h : m ≠ []) : mentionStep t m raw ≠ [] := by
  unfold mentionStep
  split
  · exact addMention_ne_nil m _ t
  · exact h

theorem foldl_mentionStep_ne_nil {t : String} (ps : List String) :
    ∀ m : List (String × List String), m ≠ [] →
      ps.foldl (mentionStep t) m ≠ [] := by
  induction ps with
  | nil => intro m h; exact h
  | cons raw rest ih =>
    intro m h
    exact ih (mentionStep t m raw) (mentionStep_ne_nil h)

theorem foldl_mentionStep_ne_nil_of_mem {t raw : String} {ps : List String}
    (hmem : raw ∈ ps) (hsome : (normalizePartnerName raw).isSome = true) :
    ∀ m : List (String × List String), ps.foldl (mentionStep t) m ≠ [] := by
  induction ps with
  | nil => cases hmem
  | cons a rest ih =>
    intro m
    rcases List.mem_cons.mp hmem with rfl | hmem2
    · rcases Option.isSome_iff_exists.mp hsome with ⟨c, hc⟩
      apply foldl_mentionStep_ne_nil rest
      unfold mentionStep
      rw [hc]
      exact addMention_ne_nil m c t
    · exact ih hmem2 (mentionStep t m a)

theorem partnershipStep_ne_nil {m : List (String × List String)} {qr : QR}
    (h : m ≠ []) : partnershipStep m qr ≠ [] := by
  unfold partnershipStep
  split
  · exact foldl_mentionStep_ne_nil _ m h
  · exact h

theorem foldl_partnershipStep_ne_nil (l : List QR) :
    ∀ m : List (String × List String), m ≠ [] →
      l.foldl partnershipStep m ≠ [] := by
  induction l with
  | nil => intro m h; exact h
  | cons b rest ih =>
    intro m h
    exact ih (partnershipStep m b) (partnershipStep_ne_nil h)

theorem buildPartnershipMap_ne_nil {qrs : List QR} {qr : QR} {ps : List String}
    {raw : String} (hqr : qr ∈ qrs) (hps : qr.insights.partnerships = some ps)
    (hraw : raw ∈ ps) (hsome : (normalizePartnerName raw).isSome = true) :
    buildPartnershipMap qrs ≠ [] := by
  have general : ∀ (l : List QR) (m : List (String × List String)),
      qr ∈ l → l.foldl partnershipStep m ≠ [] := by
    intro l
    induction l with
    | nil => intro m h; cases h
    | cons b rest ih =>
      intro m hmem
      simp only [List.foldl_cons]
      rcases List.mem_cons.mp hmem with rfl | hmem2
      · refine foldl_partnershipStep_ne_nil rest (partnershipStep m qr) ?_
        unfold partnershipStep
        rw [hps]
        exact foldl_mentionStep_ne_nil_of_mem hraw hsome m
      · exact ih (partnershipStep m b) hmem2
  exact general qrs [] hqr

theorem allPartnershipsOf_ne_nil {qrs : List QR} {qr : QR} {ps : List String}
    {raw : String} (hqr : qr ∈ qrs) (hps : qr.insights.partnerships = some ps)
    (hraw : raw ∈ ps) (hsome : (normalizePartnerName raw).isSome = true) :
    allPartnershipsOf qrs ≠ [] := by
  intro hnil
  have hmap := buildPartnershipMap_ne_nil hqr hps hraw hsome
  have hlen : (allPartnershipsOf qrs).length
      = (buildPartnershipMap qrs).length := by
    unfold allPartnershipsOf
    rw [length_sortByDesc, List.length_map]
  rw [hnil] at hlen
  exact hmap (List.eq_nil_of_length_eq_zero hlen.symm)

theorem pairwise_allPartnershipsOf (qrs : List QR) :
    (allPartnershipsOf qrs).Pairwise
      (fun a b => b.mentions ≤ a.mentions) :=
  pairwise_sortByDesc (fun e : PartnerEdge => e.mentions) _

/-- C8: the published partnership network is the descending-sorted
candidate list filtered to edges with at least 2 mentions when any such
edge exists, otherwise its top 15; the network is always sorted descending
by mentions, and on inputs where some mention normalizes but no edge
reaches 2 mentions it is non-empty with at most 15 entries. -/
theorem c8_network_quality_filter (db : EarningsMap) (tq : Option String) :
    ((∃ e ∈ allPartnershipsOf (quarterReportsOf db (resolvePeriod db tq)),
        2 ≤ e.mentions) →
      (computeMacroAnalysis db tq).aggregateInsights.partnershipNetwork =
        (allPartnershipsOf (quarterReportsOf db
          (resolvePeriod db tq))).filter (fun p => 2 ≤ p.mentions)) ∧
    ((computeMacroAnalysis db tq).aggregateInsights.partnershipNetwork.Pairwise
      (fun a b => b.mentions ≤ a.mentions)) ∧
    ((∃ qr ∈ quarterReportsOf db (resolvePeriod db tq), ∃ ps,
        qr.insights.partnerships = some ps ∧ ∃ raw ∈ ps,
          (normalizePartnerName raw).isSome = true) →
      (∀ e ∈ allPartnershipsOf (quarterReportsOf db (resolvePeriod db tq)),
        e.mentions < 2) →
      (computeMacroAnalysis db tq).aggregateInsights.partnershipNetwork =
        (allPartnershipsOf (quarterReportsOf db
          (resolvePeriod db tq))).take 15 ∧
      (computeMacroAnalysis db tq).aggregateInsights.partnershipNetwork
        ≠ [] ∧
      (computeMacroAnalysis db tq).aggregateInsights.partnershipNetwork.length
        ≤ 15) := by
  rw [partnershipNetwork_eq]
  refine ⟨?_, ?_, ?_⟩
  · rintro ⟨e, he, h2⟩
    have hmem : e ∈ (allPartnershipsOf (quarterReportsOf db
        (resolvePeriod db tq))).filter (fun p => 2 ≤ p.mentions) :=
      List.mem_filter.mpr ⟨he, by simpa using h2⟩
    have hpos : 0 < ((allPartnershipsOf (quarterReportsOf db
        (resolvePeriod db tq))).filter (fun p => 2 ≤ p.mentions)).length :=
      List.length_pos.mpr (List.ne_nil_of_mem hmem)
    simp only [partnershipNetworkOf]
    rw [if_pos hpos]
  · simp only [partnershipNetworkOf]
    split
    · exact (pairwise_allPartnershipsOf _).filter _
    · exact ((pairwise_allPartnershipsOf _).sublist
        (List.take_sublist 15 _))
  · rintro ⟨qr, hqr, ps, hps, raw, hraw, hsome⟩ hlt
    have hne := allPartnershipsOf_ne_nil hqr hps hraw hsome
    have hfilter : (allPartnershipsOf (quarterReportsOf db
        (resolvePeriod db tq))).filter (fun p => 2 ≤ p.mentions) = [] := by
      rw [List.filter_eq_nil_iff]
      intro e he
      simpa using Nat.not_le.mpr (hlt e he)
    have hcond : ¬ ((allPartnershipsOf (quarterReportsOf db
        (resolvePeriod db tq))).filter
          (fun p => 2 ≤ p.mentions)).length > 0 := by
      rw [hfilter]
      simp
    simp only [partnershipNetworkOf]
    rw [if_neg hcond]
    refine ⟨rfl, ?_, ?_⟩
    · cases hall : allPartnershipsOf (quarterReportsOf db
        (resolvePeriod db tq)) with
      | nil => exact absurd hall hne
      | cons x xs => simp
    · rw [List.length_take]
      exact Nat.min_le_left 15 _

/-- The earnings maps of the C8 witness: two companies both mentioning
"OpenAI" (filter branch), and a single company mentioning it (fallback
branch). -/
def c8dbA : EarningsMap :=
  [("AAA", ⟨⟨"AAA", "Technology", "AI"⟩,
    [⟨"Q1 2025", some { partnerships := some ["OpenAI"] }⟩]⟩),
   ("BBB", ⟨⟨"BBB", "Technology", "AI"⟩,
    [⟨"Q1 2025", some { partnerships := some ["OpenAI"] }⟩]⟩)]

def c8dbB : EarningsMap :=
  [("AAA", ⟨⟨"AAA", "Technology", "AI"⟩,
    [⟨"Q1 2025", some { partnerships := some ["OpenAI"] }⟩]⟩)]

/-- C8 witness: the filter branch on a 2-mention edge, and the non-empty
capped fallback on a record set where no edge reaches 2 mentions. -/
theorem c8_witness :
    ((computeMacroAnalysis c8dbA none).aggregateInsights.partnershipNetwork =
      (allPartnershipsOf (quarterReportsOf c8dbA
        (resolvePeriod c8dbA none))).filter (fun p => 2 ≤ p.mentions)) ∧
    ((computeMacroAnalysis c8dbB none).aggregateInsights.partnershipNetwork
      ≠ []) ∧
    ((computeMacroAnalysis c8dbB none).aggregateInsights.partnershipNetwork.length
      ≤ 15) :=
  ⟨(c8_network_quality_filter c8dbA none).1 (by decide),
   ((c8_network_quality_filter c8dbB none).2.2
     ⟨⟨"AAA", ⟨"AAA", "Technology", "AI"⟩,
        { partnerships := some ["OpenAI"] }⟩, by decide,
      ["OpenAI"], rfl, "OpenAI", by decide, by decide⟩
     (by decide)).2.1,
   ((c8_network_quality_filter c8dbB none).2.2
     ⟨⟨"AAA", ⟨"AAA", "Technology", "AI"⟩,
        { partnerships := some ["OpenAI"] }⟩, by decide,
      ["OpenAI"], rfl, "OpenAI", by decide, by decide⟩
     (by decide)).2.2⟩

/-! ## Period resolution -/

theorem mem_foldl_pushQuarter (reports : List Report) :
    ∀ (acc : List String) (q : String),
      q ∈ reports.foldl pushQuarter acc ↔
        q ∈ acc ∨ ∃ r ∈ reports, r.quarter = q := by
  induction reports with
  | nil => intro acc q; simp
  | cons r rest ih =>
    intro acc q
    simp only [List.foldl_cons]
    rw [ih]
    have hstep : q ∈ pushQuarter acc r ↔ q ∈ acc ∨ r.quarter = q := by
      unfold pushQuarter
      split
      · constructor
        · intro h; exact Or.inl h
        · rintro (h | rfl)
          · exact h
          · assumption
      · simp [List.mem_append, eq_comm]
    rw [hstep]
    simp only [List.mem_cons]
    constructor
    · rintro ((h | h) | ⟨r2, hr2, hq⟩)
      · exact Or.inl h
      · exact Or.inr ⟨r, Or.inl rfl, h⟩
      · exact Or.inr ⟨r2, Or.inr hr2, hq⟩
    · rintro (h | ⟨r2, (rfl | hr2), hq⟩)
      · exact Or.inl (Or.inl h)
      · exact Or.inl (Or.inr hq)
      · exact Or.inr ⟨r2, hr2, hq⟩

theorem mem_foldl_quartersStep (db : List (String × CompanyData)) :
    ∀ (acc : List String) (q : String),
      q ∈ db.foldl quartersStep acc ↔
        q ∈ acc ∨ ∃ td ∈ db, ∃ r ∈ td.2.reports, r.quarter = q := by
  induction db with
  | nil => intro acc q; simp
  | cons td rest ih =>
    intro acc q
    simp only [List.foldl_cons]
    rw [ih, show quartersStep acc td = td.2.reports.foldl pushQuarter acc
      from rfl, mem_foldl_pushQuarter]
    simp only [List.mem_cons]
    constructor
    · rintro ((h | h) | ⟨td2, htd2, h⟩)
      · exact Or.inl h
      · exact Or.inr ⟨td, Or.inl rfl, h⟩
      · exact Or.inr ⟨td2, Or.inr htd2, h⟩
    · rintro (h | ⟨td2, (rfl | htd2), h⟩)
      · exact Or.inl (Or.inl h)
      · exact Or.inl (Or.inr h)
      · exact Or.inr ⟨td2, htd2, h⟩

theorem mem_allQuartersOf {db : EarningsMap} {q : String} :
    q ∈ allQuartersOf db ↔
      ∃ td ∈ db, ∃ r ∈ td.2.reports, r.quarter = q := by
  unfold allQuartersOf
  rw [mem_foldl_quartersStep]
  simp

theorem period_eq (db : EarningsMap) :
    (computeMacroAnalysis db none).period = resolveFromData db := rfl

/-- C9: with no target quarter, the resolved period is the
string-lexicographic maximum of the quarter labels present across every
company's records (given the §3 label-format invariant that labels are
non-empty), and the sentinel "Unknown" when no records exist anywhere. -/
theorem c9_period_is_lexicographic_max (db : EarningsMap) :
    ((∀ td ∈ db, td.2.reports = []) →
      (computeMacroAnalysis db none).period = "Unknown") ∧
    ((∀ td ∈ db, ∀ r ∈ td.2.reports, r.quarter ≠ "") →
     (∃ td ∈ db, td.2.reports ≠ []) →
      (∃ td ∈ db, ∃ r ∈ td.2.reports,
        r.quarter = (computeMacroAnalysis db none).period) ∧
      (∀ td ∈ db, ∀ r ∈ td.2.reports,
        jsStrLt (computeMacroAnalysis db none).period r.quarter
          = false)) := by
  constructor
  · intro h
    have hnil : allQuartersOf db = [] := by
      rw [List.eq_nil_iff_forall_not_mem]
      intro q hq
      rcases mem_allQuartersOf.mp hq with ⟨td, htd, r, hr, _⟩
      rw [h td htd] at hr
      cases hr
    rw [period_eq]
    unfold resolveFromData
    rw [hnil]
    rfl
  · intro hne hex
    have hQne : allQuartersOf db ≠ [] := by
      rcases hex with ⟨td, htd, hre⟩
      rcases List.exists_mem_of_ne_nil _ hre with ⟨r, hr⟩
      exact List.ne_nil_of_mem (mem_allQuartersOf.mpr ⟨td, htd, r, hr, rfl⟩)
    have hSne : sortAscStr (allQuartersOf db) ≠ [] := by
      rcases List.exists_mem_of_ne_nil _ hQne with ⟨x, hx⟩
      exact List.ne_nil_of_mem (mem_sortAscStr.mpr hx)
    have hRne : (sortAscStr (allQuartersOf db)).reverse ≠ [] := by
      simpa using hSne
    rcases List.exists_cons_of_ne_nil hRne with ⟨m, rest, hrev⟩
    have hmQ : m ∈ allQuartersOf db := by
      have : m ∈ (sortAscStr (allQuartersOf db)).reverse := by
        rw [hrev]; exact List.mem_cons_self m rest
      exact mem_sortAscStr.mp (List.mem_reverse.mp this)
    rcases mem_allQuartersOf.mp hmQ with ⟨td, htd, r, hr, hrq⟩
    have hm0 : m ≠ "" := by
      intro h0
      exact hne td htd r hr (hrq.trans h0)
    have hperiod : (computeMacroAnalysis db none).period = m := by
      rw [period_eq]
      unfold resolveFromData
      rw [hrev]
      show (if m = "" then "Unknown" else m) = m
      rw [if_neg hm0]
    have hmax : ∀ x ∈ allQuartersOf db, jsStrLt m x = false := by
      have hpw : ((sortAscStr (allQuartersOf db)).reverse).Pairwise
          (fun a b => jsStrLt a b = false) :=
        List.pairwise_reverse.mpr (pairwise_sortAscStr _)
      rw [hrev] at hpw
      intro x hx
      have : x ∈ (sortAscStr (allQuartersOf db)).reverse :=
        List.mem_reverse.mpr (mem_sortAscStr.mpr hx)
      rw [hrev] at this
      rcases List.mem_cons.mp this with rfl | hx2
      · exact jsStrLtChars_irrefl _
      · exact (List.pairwise_cons.mp hpw).1 x hx2
    refine ⟨⟨td, htd, r, hr, by rw [hperiod]; exact hrq⟩, ?_⟩
    intro td2 htd2 r2 hr2
    rw [hperiod]
    exact hmax r2.quarter (mem_allQuartersOf.mpr ⟨td2, htd2, r2, hr2, rfl⟩)

/-- The earnings map of the C9 witness, with quarters Q3 2024 and
Q4 2024 present. -/
def c9db : EarningsMap :=
  [("AAA", ⟨⟨"AAA", "Technology", "AI"⟩,
    [⟨"Q3 2024", none⟩, ⟨"Q4 2024", none⟩]⟩)]

/-- C9 witness: on quarters Q3 2024 and Q4 2024 with no target argument,
the resolved period is the lexicographic maximum "Q4 2024". -/
theorem c9_witness :
    ((∃ td ∈ c9db, ∃ r ∈ td.2.reports,
        r.quarter = (computeMacroAnalysis c9db none).period) ∧
     (∀ td ∈ c9db, ∀ r ∈ td.2.reports,
        jsStrLt (computeMacroAnalysis c9db none).period r.quarter
          = false)) ∧
    (computeMacroAnalysis c9db none).period = "Q4 2024" :=
  ⟨(c9_period_is_lexicographic_max c9db).2 (by decide)
     ⟨("AAA", ⟨⟨"AAA", "Technology", "AI"⟩,
        [⟨"Q3 2024", none⟩, ⟨"Q4 2024", none⟩]⟩), by decide, by decide⟩,
   by rfl⟩

/-! ## getSectorComparison (src/lib/macro.ts lines 1024-1123, with the
company registry of src/lib/companies.ts passed as the `registry`
argument, modelling `getCompanyByTicker`) -/

/-- A peer entry with its insights present. -/
structure Peer where
  ticker : String
  company : Company
  insights : Insights
deriving DecidableEq

/-- The pair of null-safe averages of one peer set. -/
structure AvgPair where
  capexGrowth : Option ℚ
  revenue : Option ℚ
deriving DecidableEq

/-- The ranking block of the comparison result. -/
structure RankingR where
  inSector : Nat
  totalInSector : Nat
  inSubCategory : Nat
  totalInSubCategory : Nat
deriving DecidableEq

/-- The non-null comparison result. -/
structure ComparisonResult where
  company : Company
  companyMetrics : Option Insights
  sectorAverages : AvgPair
  subCategoryAverages : AvgPair
  ranking : RankingR
deriving DecidableEq

/-- The comparator's quarter: an omitted or falsy-empty `targetQuarter`
falls back to the ticker's own first report's quarter (`none` when the
ticker has no reports — no peer report compares equal to `undefined`). -/
def resolveCompQuarter (tq : Option String) (reports : List Report) :
    Option String :=
  match tq with
  | some q =>
    if q = "" then (reports.head?).map (fun r => r.quarter) else some q
  | none => (reports.head?).map (fun r => r.quarter)

/-- Every ticker having a report for the quarter, with its company and the
(possibly absent) insights of that report. -/
def rawPeersOf (db : EarningsMap) (aq : Option String) :
    List (String × Company × Option Insights) :=
  db.filterMap (fun td =>
    match td.2.reports.find? (fun r => some r.quarter == aq) with
    | some rep => some (td.1, td.2.company, rep.insights)
    | none => none)

/-- The same-sector peer list. -/
def sectorRawOf (company : Company) (db : EarningsMap)
    (aq : Option String) : List (String × Company × Option Insights) :=
  (rawPeersOf db aq).filter (fun p => p.2.1.sector == company.sector)

/-- The same-sector-and-subcategory peer list. -/
def subRawOf (company : Company) (db : EarningsMap) (aq : Option String) :
    List (String × Company × Option Insights) :=
  (rawPeersOf db aq).filter (fun p =>
    p.2.1.sector == company.sector &&
      p.2.1.subCategory == company.subCategory)

/-- Extract the peers whose insights are present. -/
def extractPeers (l : List (String × Company × Option Insights)) :
    List Peer :=
  l.filterMap (fun p => p.2.2.map (fun i => ⟨p.1, p.2.1, i⟩))

/-- The values of `calcAvg`: the field where present and numeric
(`v != null && !isNaN(v)`). -/
def numericValsOf (peers : List Peer) (f : Insights → Option JsNum) :
    List ℚ :=
  peers.filterMap (fun p =>
    match f p.insights with
    | some (some q) => some q
    | _ => none)

/-- Model of `calcAvg`: the mean of the present-and-numeric values, and
null (`none`) — not 0 — when there are none. -/
def calcAvg (peers : List Peer) (f : Insights → Option JsNum) :
    Option ℚ :=
  let values := numericValsOf peers f
  if values.length > 0 then
    some (values.sum / (values.length : ℚ))
  else none

/-- Revenue for ranking: `(insights.revenue || 0)` — absent, null and NaN
(all falsy) become 0. -/
def revOr0 (i : Insights) : ℚ :=
  match i.revenue with
  | some (some q) => q
  | _ => 0

/-- 1-based rank of the ticker in the peer set sorted descending by
revenue, and the defensive 0 when absent. -/
def rankOf (peers : List Peer) (t : String) : Nat :=
  match (sortByDesc (fun p => revOr0 p.insights) peers).findIdx?
      (fun p => p.ticker == t) with
  | some i => i + 1
  | none => 0

/-- Model of `getSectorComparison`.  The `.error` value models the
TypeError the source throws when a peer's matching report has no
`insights` object (`c.insights[field]` on `undefined`); `.ok none` is the
source's `null`. -/
def getSectorComparison (registry : List Company) (ticker : String)
    (db : EarningsMap) (tq : Option String) :
    Except Unit (Option ComparisonResult) :=
  match registry.find? (fun c => c.ticker == ticker) with
  | none => .ok none
  | some company =>
    match List.lookup ticker db with
    | none => .ok none
    | some companyData =>
      let aq := resolveCompQuarter tq companyData.reports
      match companyData.reports.find? (fun r => some r.quarter == aq) with
      | none => .ok none
      | some companyReport =>
        let sectorRaw := sectorRawOf company db aq
        let subRaw := subRawOf company db aq
        if sectorRaw.all (fun p => p.2.2.isSome) then
          let sectorPeers := extractPeers sectorRaw
          let subPeers := extractPeers subRaw
          .ok (some
            { company := company
              companyMetrics := companyReport.insights
              sectorAverages :=
                ⟨calcAvg sectorPeers (fun i => i.capexGrowth),
                 calcAvg sectorPeers (fun i => i.revenue)⟩
              subCategoryAverages :=
                ⟨calcAvg subPeers (fun i => i.capexGrowth),
                 calcAvg subPeers (fun i => i.revenue)⟩
              ranking :=
                ⟨rankOf sectorPeers ticker, sectorPeers.length,
                 rankOf subPeers ticker, subPeers.length⟩ })
        else .error ()

/-- The registry and earnings map of the C4 counterexample: one company
whose selected-quarter record carries no numeric `capexGrowth`. -/
def c4reg : List Company := [⟨"AAA", "Technology", "AI"⟩]

def c4db : EarningsMap :=
  [("AAA", ⟨⟨"AAA", "Technology", "AI"⟩,
    [⟨"Q1 2025", some ({} : Insights)⟩]⟩)]

/-- C4 counterexample: the call returns a non-null result whose sector
`capexGrowth` average is null (`none`), not 0, although zero peers have a
numeric value — `calcAvg` returns `values.length > 0 ? mean : null`,
unlike the 0 fallback of §4.2 step 3. -/
theorem c4_counterexample :
    (getSectorComparison c4reg "AAA" c4db none).map (fun o =>
      o.map (fun cr => cr.sectorAverages.capexGrowth))
      = .ok (some none) ∧
    (none : Option ℚ) ≠ some 0 := by
  exact ⟨by rfl, by decide⟩

/-- C4 amended: for every call of `getSectorComparison` that returns a
non-null result, the sector and sub-category averages of `capexGrowth`
and `revenue` are the `calcAvg` of the corresponding peer set: the mean
over only the peers where the field is present and numeric, and null
(`none`) — not 0 — when zero peers in the set have a numeric value for
that field. -/
theorem c4_average_semantics (registry : List Company) (ticker : String)
    (db : EarningsMap) (tq : Option String) (r : ComparisonResult)
    (company : Company) (cd : CompanyData)
    (hc : registry.find? (fun c => c.ticker == ticker) = some company)
    (hd : List.lookup ticker db = some cd)
    (hr : getSectorComparison registry ticker db tq = .ok (some r)) :
    (r.sectorAverages.capexGrowth =
      calcAvg (extractPeers (sectorRawOf company db
        (resolveCompQuarter tq cd.reports))) (fun i => i.capexGrowth)) ∧
    (r.sectorAverages.revenue =
      calcAvg (extractPeers (sectorRawOf company db
        (resolveCompQuarter tq cd.reports))) (fun i => i.revenue)) ∧
    (r.subCategoryAverages.capexGrowth =
      calcAvg (extractPeers (subRawOf company db
        (resolveCompQuarter tq cd.reports))) (fun i => i.capexGrowth)) ∧
    (r.subCategoryAverages.revenue =
      calcAvg (extractPeers (subRawOf company db
        (resolveCompQuarter tq cd.reports))) (fun i => i.revenue)) ∧
    (∀ (ps : List Peer) (f : Insights → Option JsNum),
      (numericValsOf ps f = [] → calcAvg ps f = none) ∧
      (numericValsOf ps f ≠ [] → calcAvg ps f =
        some ((numericValsOf ps f).sum /
          ((numericValsOf ps f).length : ℚ)))) := by
  have hsem : ∀ (ps : List Peer) (f : Insights → Option JsNum),
      (numericValsOf ps f = [] → calcAvg ps f = none) ∧
      (numericValsOf ps f ≠ [] → calcAvg ps f =
        some ((numericValsOf ps f).sum /
          ((numericValsOf ps f).length : ℚ))) := by
    intro ps f
    constructor
    · intro h
      unfold calcAvg
      rw [h]
      rfl
    · intro h
      unfold calcAvg
      rw [if_pos (List.length_pos.mpr h)]
  unfold getSectorComparison at hr
  rw [hc, hd] at hr
  simp only at hr
  split at hr
  · cases hr
  · split at hr
    · rcases Except.ok.inj hr with h2
      rcases Option.some.inj h2 with rfl
      exact ⟨rfl, rfl, rfl, rfl, hsem⟩
    · cases hr

/-- The expected result of the C4 witness call. -/
def c4res : ComparisonResult :=
  ⟨⟨"AAA", "Technology", "AI"⟩, some ({} : Insights),
   ⟨none, none⟩, ⟨none, none⟩, ⟨1, 1, 1, 1⟩⟩

/-- C4 witness: the amended average semantics instantiated at the
concrete single-company input. -/
theorem c4_witness :
    c4res.sectorAverages.capexGrowth =
      calcAvg (extractPeers (sectorRawOf ⟨"AAA", "Technology", "AI"⟩ c4db
        (resolveCompQuarter none [⟨"Q1 2025", some ({} : Insights)⟩])))
        (fun i => i.capexGrowth) :=
  (c4_average_semantics c4reg "AAA" c4db none c4res
    ⟨"AAA", "Technology", "AI"⟩
    ⟨⟨"AAA", "Technology", "AI"⟩, [⟨"Q1 2025", some ({} : Insights)⟩]⟩
    rfl rfl rfl).1
